import Mathlib

/-
Verification development for the WAVE transcoding library (estereo.py).

The Python source is shallowly embedded: byte buffers are lists of naturals,
Python ints are Lean Int (Python division // is Int.fdiv, Python % on a
positive modulus is Int.emod, Python arithmetic right shift by 16 is
Int.fdiv by 65536), struct packing and unpacking are explicit little-endian
byte lists, and each raise site of the source is an Except error
(valueError for ValueError, structError for struct.error on a bad buffer or
an out-of-range pack argument, overflowError for int.to_bytes overflow).
-/

namespace Estereo

/-- Kinds of Python exceptions the source can raise. -/
inductive PyError
  | valueError
  | structError
  | overflowError
deriving DecidableEq

/-- The header dictionary built by read_wave (fields in file order). -/
structure WaveHeader where
  chunkID : List Nat
  chunkSize : Nat
  format : List Nat
  subChunk1ID : List Nat
  subChunk1Size : Nat
  audioFormat : Nat
  numChannels : Nat
  sampleRate : Nat
  byteRate : Nat
  blockAlign : Nat
  bitsPerSample : Nat
deriving DecidableEq

/-- The data dictionary built by read_wave. -/
structure WaveData where
  subChunk2ID : List Nat
  subChunk2Size : Nat
  data : List Int
deriving DecidableEq

/-- The four ASCII bytes of "RIFF". -/
def riffBytes : List Nat := [82, 73, 70, 70]

/-- The four ASCII bytes of "WAVE". -/
def waveBytes : List Nat := [87, 65, 86, 69]

/-- The four ASCII bytes of "fmt ". -/
def fmtBytes : List Nat := [102, 109, 116, 32]

/-- The four ASCII bytes of "data". -/
def dataBytes : List Nat := [100, 97, 116, 97]

/-- n bytes of v, little endian (the byte layout struct.pack uses for
unsigned integer fields). -/
def natToLE : Nat → Nat → List Nat
  | 0, _ => []
  | n + 1, v => v % 256 :: natToLE n (v / 256)

/-- Reassemble a little-endian byte list into an unsigned value
(struct.unpack for the unsigned integer formats). -/
def leToNat : List Nat → Nat
  | [] => 0
  | b :: bs => b + 256 * leToNat bs

/-- Signed interpretation of a little-endian byte list, two's complement at
the width given by the list length (struct.unpack for formats b, h, i, and
int.from_bytes with signed=True). -/
def leToInt (bs : List Nat) : Int :=
  if 2 * leToNat bs < 2 ^ (8 * bs.length) then (leToNat bs : Int)
  else (leToNat bs : Int) - 2 ^ (8 * bs.length)

/-- n-byte little-endian two's-complement encoding of a signed value
(struct.pack for formats b, h, i on an in-range value). -/
def intToLE (n : Nat) (v : Int) : List Nat :=
  natToLE n (v.emod (2 ^ (8 * n))).toNat

/-- struct.pack format 4s: pad with null bytes or truncate to 4 bytes. -/
def pack4s (s : List Nat) : List Nat :=
  s.take 4 ++ List.replicate (4 - s.length) 0

/-- Serialize a sample list at w bytes per sample, little endian
(the pack of the sample payload in write_wave). -/
def samplesToBytes (w : Nat) (xs : List Int) : List Nat :=
  xs.foldr (fun x acc => intToLE w x ++ acc) []

/-- Fuel-driven worker for bytesToSamples: split the buffer into w-byte
groups and decode each as a signed little-endian sample. -/
def bytesToSamplesF : Nat → Nat → List Nat → List Int
  | 0, _, _ => []
  | _ + 1, _, [] => []
  | fuel + 1, w, b :: rest =>
      leToInt ((b :: rest).take w) :: bytesToSamplesF fuel w (rest.drop (w - 1))

/-- st.iter_unpack over the remainder of the buffer: decode consecutive
w-byte groups as signed little-endian samples. -/
def bytesToSamples (w : Nat) (bs : List Nat) : List Int :=
  bytesToSamplesF bs.length w bs

/-- The data sub-chunk stage of read_wave: an 8-byte data sub-chunk header
(4s, u32), then the remaining bytes decoded at the width selected by
BitsPerSample (1 byte for 8, 2 for 16, 4 for 32; anything else raises
ValueError before any sample is decoded). -/
def readData (chunkID : List Nat) (chunkSize : Nat) (format : List Nat)
    (sub1ID : List Nat) (sub1Size audioFormat numChannels sampleRate
     byteRate blockAlign bitsPerSample : Nat) (u : List Nat) :
    Except PyError (WaveHeader × WaveData) :=
  if u.length < 8 then .error .structError else
  match (if bitsPerSample = 8 then some 1
         else if bitsPerSample = 16 then some 2
         else if bitsPerSample = 32 then some 4
         else none : Option Nat) with
  | none => .error .valueError
  | some w =>
      if (u.drop 8).length % w ≠ 0 then .error .structError else
      .ok ({ chunkID := chunkID, chunkSize := chunkSize, format := format,
             subChunk1ID := sub1ID, subChunk1Size := sub1Size,
             audioFormat := audioFormat, numChannels := numChannels,
             sampleRate := sampleRate, byteRate := byteRate,
             blockAlign := blockAlign, bitsPerSample := bitsPerSample },
           { subChunk2ID := u.take 4,
             subChunk2Size := leToNat ((u.drop 4).take 4),
             data := bytesToSamples w (u.drop 8) })

/-- The fmt stage of read_wave: the WAVE magic check of the source, then
the 24-byte fmt sub-chunk (4s, u32, two u16, two u32, two u16) at its
fixed offsets, then the data stage on the remainder. -/
def readFmt (chunkID : List Nat) (chunkSize : Nat) (format : List Nat)
    (t : List Nat) : Except PyError (WaveHeader × WaveData) :=
  if format ≠ waveBytes then .error .valueError else
  if t.length < 24 then .error .structError else
  readData chunkID chunkSize format (t.take 4) (leToNat ((t.drop 4).take 4))
    (leToNat ((t.drop 8).take 2)) (leToNat ((t.drop 10).take 2))
    (leToNat ((t.drop 12).take 4)) (leToNat ((t.drop 16).take 4))
    (leToNat ((t.drop 20).take 2)) (leToNat ((t.drop 22).take 2))
    (t.drop 24)

/-- read_wave: parse a byte buffer into the header and data dictionaries,
mirroring the sequential reads of the source: the 12-byte RIFF descriptor
here, then the fmt and data stages (readFmt, readData) on the rest, each
raising struct.error when the buffer is too short for its unpack. -/
def read_wave (bs : List Nat) : Except PyError (WaveHeader × WaveData) :=
  if bs.length < 12 then .error .structError else
  readFmt (bs.take 4) (leToNat ((bs.drop 4).take 4)) ((bs.drop 8).take 4)
    (bs.drop 12)

/-- write_wave: check the WAVE magic, then serialize header, data sub-chunk
header and samples exactly as the source packs them; struct.pack raises on
a numeric field outside its unsigned width or a sample outside the signed
width selected by BitsPerSample. -/
def write_wave (h : WaveHeader) (d : WaveData) : Except PyError (List Nat) :=
  if h.format ≠ waveBytes then .error .valueError else
  if ¬ (h.chunkSize < 2 ^ 32 ∧ h.subChunk1Size < 2 ^ 32 ∧
        h.audioFormat < 2 ^ 16 ∧ h.numChannels < 2 ^ 16 ∧
        h.sampleRate < 2 ^ 32 ∧ h.byteRate < 2 ^ 32 ∧
        h.blockAlign < 2 ^ 16 ∧ h.bitsPerSample < 2 ^ 16 ∧
        d.subChunk2Size < 2 ^ 32) then .error .structError else
  let wOpt : Option Nat :=
    if h.bitsPerSample = 8 then some 1
    else if h.bitsPerSample = 16 then some 2
    else if h.bitsPerSample = 32 then some 4
    else none
  match wOpt with
  | none => .error .valueError
  | some w =>
      if ¬ (∀ x ∈ d.data, -(2 ^ (8 * w - 1)) ≤ x ∧ x < 2 ^ (8 * w - 1)) then
        .error .structError
      else
        .ok (pack4s h.chunkID ++ natToLE 4 h.chunkSize ++ pack4s h.format ++
             pack4s h.subChunk1ID ++ natToLE 4 h.subChunk1Size ++
             natToLE 2 h.audioFormat ++ natToLE 2 h.numChannels ++
             natToLE 4 h.sampleRate ++ natToLE 4 h.byteRate ++
             natToLE 2 h.blockAlign ++ natToLE 2 h.bitsPerSample ++
             pack4s d.subChunk2ID ++ natToLE 4 d.subChunk2Size ++
             samplesToBytes w d.data)

/-- Python extended slicing with step 2: every2 true is xs sliced from 0
(data with even index), every2 false is xs sliced from 1 (odd index). -/
def every2 : Bool → List α → List α
  | _, [] => []
  | true, x :: xs => x :: every2 false xs
  | false, _ :: xs => every2 true xs

/-- Python extended slice assignment with step 2: assignEvery2 true xs ys
writes ys over the even positions of xs, assignEvery2 false xs ys over the
odd positions; none models the ValueError raised when the lengths of the
slice and of the assigned sequence differ. -/
def assignEvery2 : Bool → List α → List α → Option (List α)
  | _, [], [] => some []
  | _, [], _ :: _ => none
  | true, _ :: _, [] => none
  | true, _ :: xs, y :: ys => (assignEvery2 false xs ys).map (y :: ·)
  | false, x :: xs, ys => (assignEvery2 true xs ys).map (x :: ·)

/-- Alternating merge of two lists, appending the leftover tail of the
longer one. -/
def interleave : List α → List α → List α
  | x :: xs, y :: ys => x :: y :: interleave xs ys
  | xs, [] => xs
  | [], ys => ys

/-- The channel-combination step shared by mono2estereo and decEstereo:
data = left + right, then data with even index = left and data with odd
index = right by extended slice assignment. -/
def combineLR (l r : List α) : Except PyError (List α) :=
  let d0 := l ++ r
  match assignEvery2 true d0 l with
  | none => .error .valueError
  | some d1 =>
      match assignEvery2 false d1 r with
      | none => .error .valueError
      | some d2 => .ok d2

/-- The per-pair mean of estereo2mono canal 2 and the semi-sum of
codEstereo: Python floor division (left + right) // 2. -/
def halfSum (a b : Int) : Int := (a + b).fdiv 2

/-- The per-pair difference of estereo2mono canal 3 and the semi-difference
of codEstereo: Python floor division (left - right) // 2. -/
def halfDiff (a b : Int) : Int := (a - b).fdiv 2

/-- estereo2mono after read_wave and before write_wave: the channel check,
the mono header update and the mono data dictionary of the source. -/
def estereo2monoTrans (header : WaveHeader) (d : WaveData) (canal : Nat) :
    Except PyError (WaveHeader × WaveData) :=
  if header.numChannels ≠ 2 then .error .valueError else
  let h := { header with
             numChannels := 1
             byteRate := header.sampleRate * 1 * header.bitsPerSample / 8
             blockAlign := 1 * header.bitsPerSample / 8 }
  let lc := every2 true d.data
  let rc := every2 false d.data
  let monoE : Except PyError (List Int) :=
    if canal = 0 then .ok lc
    else if canal = 1 then .ok rc
    else if canal = 2 then .ok (List.zipWith halfSum lc rc)
    else if canal = 3 then .ok (List.zipWith halfDiff lc rc)
    else .error .valueError
  match monoE with
  | .error e => .error e
  | .ok m => .ok (h, { subChunk2ID := dataBytes,
                       subChunk2Size := m.length * 1 * h.bitsPerSample / 8,
                       data := m })

/-- mono2estereo after the two read_wave calls and before write_wave: the
two channel checks, the stereo header update of the left header, and the
concatenate-then-slice-assign combination of the source. -/
def mono2estereoTrans (hl : WaveHeader) (dl : WaveData)
    (hr : WaveHeader) (dr : WaveData) :
    Except PyError (WaveHeader × WaveData) :=
  if hl.numChannels ≠ 1 then .error .valueError else
  if hr.numChannels ≠ 1 then .error .valueError else
  let h := { hl with
             numChannels := 2
             byteRate := hl.sampleRate * 2 * hl.bitsPerSample / 8
             blockAlign := 2 * hl.bitsPerSample / 8 }
  match combineLR dl.data dr.data with
  | .error e => .error e
  | .ok ds => .ok (h, { subChunk2ID := dataBytes,
                        subChunk2Size := dl.data.length * 2 * h.bitsPerSample / 8,
                        data := ds })

/-- int.to_bytes(v, length=2, byteorder="little", signed=True): the 2-byte
encoding, raising OverflowError outside the signed 16-bit range. -/
def toBytes16 (v : Int) : Except PyError (List Nat) :=
  if -32768 ≤ v ∧ v ≤ 32767 then .ok (intToLE 2 v) else .error .overflowError

/-- A list comprehension applying toBytes16, stopping at the first
OverflowError (the semi_sum_bytes and semi_diff_bytes comprehensions). -/
def mapSemiBytes : List Int → Except PyError (List (List Nat))
  | [] => .ok []
  | v :: vs =>
      match toBytes16 v with
      | .error e => .error e
      | .ok bv =>
          match mapSemiBytes vs with
          | .error e => .error e
          | .ok rest => .ok (bv :: rest)

/-- The sample computation of codEstereo: split the interleaved stereo data
into channels, encode each semi-sum and semi-difference as 2 bytes, and
read each concatenation sum-bytes ++ diff-bytes back as one signed 32-bit
sample. -/
def codEstereoData (d : List Int) : Except PyError (List Int) :=
  let lc := every2 true d
  let rc := every2 false d
  match mapSemiBytes (List.zipWith halfSum lc rc) with
  | .error e => .error e
  | .ok sumBytes =>
      match mapSemiBytes (List.zipWith halfDiff lc rc) with
      | .error e => .error e
      | .ok diffBytes =>
          .ok (List.zipWith (fun sb db => leToInt (sb ++ db)) sumBytes diffBytes)

/-- codEstereo after read_wave and before write_wave: the channel check,
the 32-bit mono header update, and the packed sample computation. -/
def codEstereoTrans (header : WaveHeader) (d : WaveData) :
    Except PyError (WaveHeader × WaveData) :=
  if header.numChannels ≠ 2 then .error .valueError else
  let h := { header with
             numChannels := 1
             bitsPerSample := 32
             byteRate := header.sampleRate * 1 * 32 / 8
             blockAlign := 1 * 32 / 8 }
  match codEstereoData d.data with
  | .error e => .error e
  | .ok cod => .ok (h, { subChunk2ID := dataBytes,
                         subChunk2Size := cod.length * 1 * 32 / 8,
                         data := cod })

/-- The semi_sum list comprehension of decEstereo: take the HIGH 16 bits of
the packed sample ((sample >> 16) & 0xFFFF in Python, arithmetic shift),
2-byte round trip, signed interpretation. -/
def decSemiSum (s : Int) : Int :=
  leToInt (natToLE 2 ((s.fdiv 65536).emod 65536).toNat)

/-- The semi_diff list comprehension of decEstereo: take the LOW 16 bits of
the packed sample (sample & 0xFFFF in Python), 2-byte round trip, signed
interpretation. -/
def decSemiDiff (s : Int) : Int :=
  leToInt (natToLE 2 (s.emod 65536).toNat)

/-- The sample computation of decEstereo: semi_sum and semi_diff per packed
sample, left = semi_sum + semi_diff and right = semi_sum - semi_diff, then
the concatenate-then-slice-assign interleaving of the source. -/
def decEstereoData (packed : List Int) : Except PyError (List Int) :=
  let semiSum := packed.map decSemiSum
  let semiDiff := packed.map decSemiDiff
  let leftC := List.zipWith (· + ·) semiSum semiDiff
  let rightC := List.zipWith (· - ·) semiSum semiDiff
  combineLR leftC rightC

/-- decEstereo after read_wave and before write_wave: the mono and 32-bit
checks, the 16-bit stereo header update, the decoded data dictionary and
its SubChunk2Size as the source computes it. -/
def decEstereoTrans (header : WaveHeader) (d : WaveData) :
    Except PyError (WaveHeader × WaveData) :=
  if header.numChannels ≠ 1 then .error .valueError else
  if header.bitsPerSample ≠ 32 then .error .valueError else
  let h := { header with
             numChannels := 2
             bitsPerSample := 16
             byteRate := header.sampleRate * 2 * 16 / 8
             blockAlign := 2 * 16 / 8 }
  match decEstereoData d.data with
  | .error e => .error e
  | .ok ds => .ok (h, { subChunk2ID := dataBytes,
                        subChunk2Size := ds.length * 2 * 16 / 8,
                        data := ds })

/-- The packed 32-bit sample codEstereo produces for one in-range pair:
the semi-sum bytes followed by the semi-difference bytes, read back as one
signed little-endian 32-bit integer. -/
def encSample (a b : Int) : Int :=
  leToInt (intToLE 2 (halfSum a b) ++ intToLE 2 (halfDiff a b))

/-- A consistent 16-bit stereo header for a file of four samples
(payload 8 bytes, total file 52 bytes, ChunkSize 44). -/
def exStereoHeader : WaveHeader :=
  { chunkID := riffBytes, chunkSize := 44, format := waveBytes,
    subChunk1ID := fmtBytes, subChunk1Size := 16, audioFormat := 1,
    numChannels := 2, sampleRate := 8000, byteRate := 32000,
    blockAlign := 4, bitsPerSample := 16 }

/-- The header estereo2mono derives from exStereoHeader: one channel,
ByteRate and BlockAlign recomputed, ChunkSize untouched. -/
def exMonoHeader16 : WaveHeader :=
  { chunkID := riffBytes, chunkSize := 44, format := waveBytes,
    subChunk1ID := fmtBytes, subChunk1Size := 16, audioFormat := 1,
    numChannels := 1, sampleRate := 8000, byteRate := 16000,
    blockAlign := 2, bitsPerSample := 16 }

/-- A 32-bit mono header of the shape codEstereo outputs (the valid input
shape for decEstereo). -/
def exMono32Header : WaveHeader :=
  { chunkID := riffBytes, chunkSize := 40, format := waveBytes,
    subChunk1ID := fmtBytes, subChunk1Size := 16, audioFormat := 1,
    numChannels := 1, sampleRate := 8000, byteRate := 32000,
    blockAlign := 4, bitsPerSample := 32 }

/-- The 16-bit stereo header decEstereo derives from exMono32Header. -/
def exDecHeader : WaveHeader :=
  { chunkID := riffBytes, chunkSize := 40, format := waveBytes,
    subChunk1ID := fmtBytes, subChunk1Size := 16, audioFormat := 1,
    numChannels := 2, sampleRate := 8000, byteRate := 32000,
    blockAlign := 4, bitsPerSample := 16 }

instance {ε α : Type} [DecidableEq ε] [DecidableEq α] :
    DecidableEq (Except ε α)
  | .error a, .error b => decidable_of_iff (a = b) (by simp)
  | .ok a, .ok b => decidable_of_iff (a = b) (by simp)
  | .error _, .ok _ => isFalse (fun h => by cases h)
  | .ok _, .error _ => isFalse (fun h => by cases h)

end Estereo

namespace Estereo

theorem natToLE_length (n v : Nat) : (natToLE n v).length = n := by
  induction n generalizing v with
  | zero => rfl
  | succ n ih => simp [natToLE, ih]

theorem intToLE_length (n : Nat) (v : Int) : (intToLE n v).length = n := by
  simp [intToLE, natToLE_length]

theorem halfSum_bounds {a b : Int} (ha : -32768 ≤ a ∧ a ≤ 32767)
    (hb : -32768 ≤ b ∧ b ≤ 32767) :
    -32768 ≤ halfSum a b ∧ halfSum a b ≤ 32767 := by
  unfold halfSum
  rw [Int.fdiv_eq_ediv _ (by decide)]
  omega

theorem halfDiff_bounds {a b : Int} (ha : -32768 ≤ a ∧ a ≤ 32767)
    (hb : -32768 ≤ b ∧ b ≤ 32767) :
    -32768 ≤ halfDiff a b ∧ halfDiff a b ≤ 32767 := by
  unfold halfDiff
  rw [Int.fdiv_eq_ediv _ (by decide)]
  omega

theorem mem_every2 {ph : Bool} {xs : List α} {x : α}
    (h : x ∈ every2 ph xs) : x ∈ xs := by
  induction xs generalizing ph with
  | nil => cases ph <;> simp [every2] at h
  | cons y ys ih =>
      cases ph with
      | true =>
          rw [every2] at h
          rcases List.mem_cons.mp h with h | h
          · simp [h]
          · exact List.mem_cons_of_mem _ (ih h)
      | false =>
          rw [every2] at h
          exact List.mem_cons_of_mem _ (ih h)

theorem exists_of_mem_zipWith {f : α → β → γ} {as : List α} {bs : List β}
    {x : γ} (h : x ∈ List.zipWith f as bs) :
    ∃ a ∈ as, ∃ b ∈ bs, x = f a b := by
  induction as generalizing bs with
  | nil => simp at h
  | cons a as ih =>
      cases bs with
      | nil => simp at h
      | cons b bs =>
          rw [List.zipWith_cons_cons] at h
          rcases List.mem_cons.mp h with h | h
          · exact ⟨a, List.mem_cons_self a as, b, List.mem_cons_self b bs, h⟩
          · obtain ⟨a₂, ha, b₂, hb, hx⟩ := ih h
            exact ⟨a₂, List.mem_cons_of_mem _ ha, b₂, List.mem_cons_of_mem _ hb, hx⟩

end Estereo

namespace Estereo

/-- C2: the source decoder reads the halves SWAPPED. For the packed sample
196615 (whose low 16 bits hold 7 and whose high 16 bits hold 3, exactly the
layout codEstereo produces for left = 10, right = 4), decEstereo computes
its semi_sum from the HIGH 16 bits (giving 3) and its semi_diff from the
LOW 16 bits (giving 7), and returns the interleaved pair left = 10,
right = -4, not semiSum = 7, semiDiff = 3, right = 4 as the claim states. -/
theorem c2_decode_halves_swapped_eval :
    decSemiSum 196615 = 3 ∧ decSemiDiff 196615 = 7 ∧
    decEstereoData [196615] = .ok [10, -4] ∧
    codEstereoData (interleave [10] [4]) = .ok [196615] := by
  decide

/-- C3: decEstereo sets SubChunk2Size to the number of interleaved output
samples times NumChannels times BitsPerSample/8, twice the payload byte
count: decoding one packed sample writes SubChunk2Size = 8, while the
payload write_wave emits is 2 samples of 2 bytes = 4 bytes (the whole file
is 48 bytes, 44 of header). -/
theorem c3_decEstereo_subchunk2size_double :
    decEstereoTrans exMono32Header
      { subChunk2ID := dataBytes, subChunk2Size := 4, data := [196615] } =
      .ok (exDecHeader,
           { subChunk2ID := dataBytes, subChunk2Size := 8, data := [10, -4] }) ∧
    ([10, -4] : List Int).length * (16 / 8) = 4 ∧
    (write_wave exDecHeader
      { subChunk2ID := dataBytes, subChunk2Size := 8, data := [10, -4] }).map
        List.length = .ok 48 := by
  refine ⟨by decide, by decide, by decide⟩

/-- C6: estereo2mono derives MEAN and DIFF with Python floor division: on
left = [100, -200], right = [50, 50] the MEAN output is [75, -75] and the
DIFF output is [25, -125], and in general halfSum and halfDiff round the
sum and the difference toward negative infinity. -/
theorem c6_mean_diff_floor :
    estereo2monoTrans exStereoHeader
      { subChunk2ID := dataBytes, subChunk2Size := 8, data := [100, 50, -200, 50] } 2 =
      .ok (exMonoHeader16,
           { subChunk2ID := dataBytes, subChunk2Size := 4, data := [75, -75] }) ∧
    estereo2monoTrans exStereoHeader
      { subChunk2ID := dataBytes, subChunk2Size := 8, data := [100, 50, -200, 50] } 3 =
      .ok (exMonoHeader16,
           { subChunk2ID := dataBytes, subChunk2Size := 4, data := [25, -125] }) ∧
    (∀ a b : Int, 2 * halfSum a b ≤ a + b ∧ a + b < 2 * halfSum a b + 2) ∧
    (∀ a b : Int, 2 * halfDiff a b ≤ a - b ∧ a - b < 2 * halfDiff a b + 2) := by
  refine ⟨by decide, by decide, ?_, ?_⟩ <;> intro a b
  · unfold halfSum
    rw [Int.fdiv_eq_ediv _ (by decide)]
    omega
  · unfold halfDiff
    rw [Int.fdiv_eq_ediv _ (by decide)]
    omega

/-- C10: a valid 32-bit mono input decEstereo accepts can decode to a
channel value outside the signed 16-bit range, and writing the decoded
16-bit stereo output then fails: packed sample 2147450879 (0x7FFF7FFF)
decodes to left = 65534, right = 0, and write_wave rejects 65534 at width
16 with struct.error. -/
theorem c10_decode_overflow_reaches_write_error :
    decEstereoTrans exMono32Header
      { subChunk2ID := dataBytes, subChunk2Size := 4, data := [2147450879] } =
      .ok (exDecHeader,
           { subChunk2ID := dataBytes, subChunk2Size := 8, data := [65534, 0] }) ∧
    (∃ x ∈ ([65534, 0] : List Int), 32767 < x) ∧
    write_wave exDecHeader
      { subChunk2ID := dataBytes, subChunk2Size := 8, data := [65534, 0] } =
      .error .structError := by
  refine ⟨by decide, ⟨65534, by decide, by decide⟩, by decide⟩

end Estereo

namespace Estereo

/-- C7: on a stereo input whose samples all lie in the signed 16-bit range,
estereo2mono with canal 2 (MEAN) or canal 3 (DIFF) succeeds and every
output sample again lies in the signed 16-bit range. -/
theorem c7_mean_diff_in_range (header : WaveHeader) (d : WaveData) (canal : Nat)
    (hch : header.numChannels = 2) (hc : canal = 2 ∨ canal = 3)
    (hin : ∀ x ∈ d.data, -32768 ≤ x ∧ x ≤ 32767) :
    ∃ h' d', estereo2monoTrans header d canal = .ok (h', d') ∧
      ∀ y ∈ d'.data, -32768 ≤ y ∧ y ≤ 32767 := by
  rcases hc with rfl | rfl
  · refine ⟨_, _, by simp [estereo2monoTrans, hch]; exact ⟨rfl, rfl⟩, ?_⟩
    intro y hy
    obtain ⟨a, ha, b, hb, rfl⟩ := exists_of_mem_zipWith hy
    exact halfSum_bounds (hin a (mem_every2 ha)) (hin b (mem_every2 hb))
  · refine ⟨_, _, by simp [estereo2monoTrans, hch]; exact ⟨rfl, rfl⟩, ?_⟩
    intro y hy
    obtain ⟨a, ha, b, hb, rfl⟩ := exists_of_mem_zipWith hy
    exact halfDiff_bounds (hin a (mem_every2 ha)) (hin b (mem_every2 hb))

/-- Witness for c7_mean_diff_in_range at a concrete stereo file. -/
theorem c7_mean_diff_in_range_witness :
    ∃ h' d', estereo2monoTrans exStereoHeader
      { subChunk2ID := dataBytes, subChunk2Size := 8, data := [100, 50, -200, 50] } 2 =
      .ok (h', d') ∧ ∀ y ∈ d'.data, -32768 ≤ y ∧ y ≤ 32767 :=
  c7_mean_diff_in_range exStereoHeader
    { subChunk2ID := dataBytes, subChunk2Size := 8, data := [100, 50, -200, 50] } 2
    (by decide) (Or.inl rfl) (by decide)

end Estereo

namespace Estereo

/-- C9: none of the four transforms touches ChunkSize: whenever a transform
succeeds, the output header carries the ChunkSize of its (left, for
mono2estereo) input header verbatim; concretely, converting the consistent
stereo file exStereoHeader (ChunkSize 44) to mono writes a 48-byte file
whose stored ChunkSize 44 no longer equals file size minus 8. -/
theorem c9_chunkSize_never_updated :
    (∀ header d canal h' d', estereo2monoTrans header d canal = .ok (h', d') →
      h'.chunkSize = header.chunkSize) ∧
    (∀ hl dl hr dr h' d', mono2estereoTrans hl dl hr dr = .ok (h', d') →
      h'.chunkSize = hl.chunkSize) ∧
    (∀ header d h' d', codEstereoTrans header d = .ok (h', d') →
      h'.chunkSize = header.chunkSize) ∧
    (∀ header d h' d', decEstereoTrans header d = .ok (h', d') →
      h'.chunkSize = header.chunkSize) ∧
    (estereo2monoTrans exStereoHeader
      { subChunk2ID := dataBytes, subChunk2Size := 8, data := [100, 50, -200, 50] } 0 =
      .ok (exMonoHeader16,
           { subChunk2ID := dataBytes, subChunk2Size := 4, data := [100, -200] }) ∧
     (write_wave exMonoHeader16
       { subChunk2ID := dataBytes, subChunk2Size := 4, data := [100, -200] }).map
         List.length = .ok 48 ∧
     exMonoHeader16.chunkSize + 8 ≠ 48) := by
  refine ⟨?_, ?_, ?_, ?_, by decide, by decide, by decide⟩
  · intro header d canal h' d' he
    simp only [estereo2monoTrans] at he
    split at he
    · exact absurd he (by simp)
    · split at he
      · exact absurd he (by simp)
      · simp only [Except.ok.injEq, Prod.mk.injEq] at he
        rw [← he.1]
  · intro hl dl hr dr h' d' he
    simp only [mono2estereoTrans] at he
    split at he
    · exact absurd he (by simp)
    · split at he
      · exact absurd he (by simp)
      · split at he
        · exact absurd he (by simp)
        · simp only [Except.ok.injEq, Prod.mk.injEq] at he
          rw [← he.1]
  · intro header d h' d' he
    simp only [codEstereoTrans] at he
    split at he
    · exact absurd he (by simp)
    · split at he
      · exact absurd he (by simp)
      · simp only [Except.ok.injEq, Prod.mk.injEq] at he
        rw [← he.1]
  · intro header d h' d' he
    simp only [decEstereoTrans] at he
    split at he
    · exact absurd he (by simp)
    · split at he
      · exact absurd he (by simp)
      · split at he
        · exact absurd he (by simp)
        · simp only [Except.ok.injEq, Prod.mk.injEq] at he
          rw [← he.1]

/-- Witness for c9_chunkSize_never_updated at a concrete conversion. -/
theorem c9_chunkSize_never_updated_witness :
    exMonoHeader16.chunkSize = exStereoHeader.chunkSize :=
  c9_chunkSize_never_updated.1 exStereoHeader
    { subChunk2ID := dataBytes, subChunk2Size := 8, data := [100, 50, -200, 50] } 0
    exMonoHeader16 { subChunk2ID := dataBytes, subChunk2Size := 4, data := [100, -200] }
    (by decide)

end Estereo

namespace Estereo

theorem interleave_cons (y : α) : ∀ (B A : List α),
    interleave (y :: B) A = y :: interleave A B
  | B, [] => by cases B <;> rfl
  | B, a :: A' => by
      simp only [interleave]
      rw [interleave_cons a A' B]
termination_by B A => A.length + B.length
decreasing_by simp; omega

theorem interleave_eta : ∀ xs : List α,
    interleave (every2 true xs) (every2 false xs) = xs := by
  intro xs
  induction xs with
  | nil => rfl
  | cons x t ih =>
      simp only [every2]
      rw [interleave_cons, ih]

theorem interleave_length : ∀ (l r : List α),
    (interleave l r).length = l.length + r.length
  | x :: xs, y :: ys => by
      simp only [interleave, List.length_cons, interleave_length xs ys]
      omega
  | [], [] => rfl
  | x :: xs, [] => by simp [interleave]
  | [], y :: ys => by simp [interleave]

theorem optMapIsSome {f : α → β} {o : Option α} :
    (o.map f).isSome = o.isSome := by
  cases o <;> rfl

theorem assignEvery2_length {ph : Bool} : ∀ {xs ys zs : List α},
    assignEvery2 ph xs ys = some zs → zs.length = xs.length := by
  intro xs
  induction xs generalizing ph with
  | nil =>
      intro ys zs h
      cases ys with
      | nil => cases ph <;> simp [assignEvery2] at h <;> simp [← h]
      | cons y ys' => cases ph <;> simp [assignEvery2] at h
  | cons x t ih =>
      intro ys zs h
      cases ph with
      | true =>
          cases ys with
          | nil => simp [assignEvery2] at h
          | cons y ys' =>
              simp only [assignEvery2, Option.map_eq_some'] at h
              obtain ⟨zs', hz, rfl⟩ := h
              simp [ih hz]
      | false =>
          simp only [assignEvery2, Option.map_eq_some'] at h
          obtain ⟨zs', hz, rfl⟩ := h
          simp [ih hz]

theorem assignEvery2_isSome_iff {ph : Bool} : ∀ {xs ys : List α},
    (assignEvery2 ph xs ys).isSome ↔
      ys.length = (xs.length + cond ph 1 0) / 2 := by
  intro xs
  induction xs generalizing ph with
  | nil =>
      intro ys
      cases ys with
      | nil => cases ph <;> simp [assignEvery2]
      | cons y ys' => cases ph <;> simp [assignEvery2]
  | cons x t ih =>
      intro ys
      cases ph with
      | true =>
          cases ys with
          | nil => simp [assignEvery2]; omega
          | cons y ys' =>
              simp only [assignEvery2, optMapIsSome, List.length_cons]
              rw [ih]
              simp only [cond]
              omega
      | false =>
          simp only [assignEvery2, optMapIsSome, List.length_cons]
          rw [ih]
          simp only [cond]

theorem assignEvery2_every2 {ph : Bool} : ∀ {xs ys zs : List α},
    assignEvery2 ph xs ys = some zs →
      every2 ph zs = ys ∧ every2 (!ph) zs = every2 (!ph) xs := by
  intro xs
  induction xs generalizing ph with
  | nil =>
      intro ys zs h
      cases ys with
      | nil =>
          cases ph <;> simp [assignEvery2] at h <;> subst h <;>
            simp [every2]
      | cons y ys' => cases ph <;> simp [assignEvery2] at h
  | cons x t ih =>
      intro ys zs h
      cases ph with
      | true =>
          cases ys with
          | nil => simp [assignEvery2] at h
          | cons y ys' =>
              simp only [assignEvery2, Option.map_eq_some'] at h
              obtain ⟨zs', hz, rfl⟩ := h
              obtain ⟨h1, h2⟩ := ih hz
              simp only [Bool.not_false] at h2
              simp only [Bool.not_true]
              simp [every2, h1, h2]
      | false =>
          simp only [assignEvery2, Option.map_eq_some'] at h
          obtain ⟨zs', hz, rfl⟩ := h
          obtain ⟨h1, h2⟩ := ih hz
          simp only [Bool.not_true] at h2
          simp only [Bool.not_false]
          simp [every2, h1, h2]

end Estereo

namespace Estereo

theorem combineLR_eq_ok {l r out : List α} :
    combineLR l r = .ok out ↔
      ((l.length = r.length ∨ l.length = r.length + 1) ∧
        out = interleave l r) := by
  constructor
  · intro h
    cases e1 : assignEvery2 true (l ++ r) l with
    | none => simp [combineLR, e1] at h
    | some d1 =>
        cases e2 : assignEvery2 false d1 r with
        | none => simp [combineLR, e1, e2] at h
        | some d2 =>
            simp only [combineLR, e1, e2, Except.ok.injEq] at h
            subst h
            have hlen1 : l.length = ((l ++ r).length + 1) / 2 := by
              have := (@assignEvery2_isSome_iff _ true (l ++ r) l).mp
                (by simp [e1])
              simpa using this
            have hcond : l.length = r.length ∨ l.length = r.length + 1 := by
              rw [List.length_append] at hlen1
              omega
            obtain ⟨hv1, hw1⟩ := assignEvery2_every2 e1
            obtain ⟨hv2, hw2⟩ := assignEvery2_every2 e2
            refine ⟨hcond, ?_⟩
            have : interleave (every2 true d2) (every2 false d2) = d2 :=
              interleave_eta d2
            rw [← this, hv2]
            simp only [Bool.not_false] at hw2
            rw [hw2, hv1]
  · rintro ⟨hcond, rfl⟩
    have hs1 : (assignEvery2 true (l ++ r) l).isSome := by
      rw [assignEvery2_isSome_iff]
      simp only [List.length_append, cond]
      omega
    obtain ⟨d1, e1⟩ := Option.isSome_iff_exists.mp hs1
    have hd1len : d1.length = l.length + r.length := by
      have := assignEvery2_length e1
      simpa using this
    have hs2 : (assignEvery2 false d1 r).isSome := by
      rw [assignEvery2_isSome_iff]
      simp only [cond, hd1len]
      omega
    obtain ⟨d2, e2⟩ := Option.isSome_iff_exists.mp hs2
    obtain ⟨hv1, hw1⟩ := assignEvery2_every2 e1
    obtain ⟨hv2, hw2⟩ := assignEvery2_every2 e2
    simp only [combineLR, e1, e2, Except.ok.injEq]
    have : interleave (every2 true d2) (every2 false d2) = d2 :=
      interleave_eta d2
    rw [← this, hv2]
    simp only [Bool.not_false] at hw2
    rw [hw2, hv1]

/-- C4 counterexample: on mono inputs of unequal sample counts (left one
sample, right three) mono2estereo raises ValueError at the extended slice
assignment; it does not return a truncated interleaved result. -/
theorem c4_unequal_lengths_counterexample :
    mono2estereoTrans exMonoHeader16
      { subChunk2ID := dataBytes, subChunk2Size := 2, data := [5] }
      exMonoHeader16
      { subChunk2ID := dataBytes, subChunk2Size := 6, data := [1, 2, 3] } =
      .error .valueError := by
  decide

/-- C4 amended: mono2estereo does not truncate to the shorter input. On two
mono inputs it succeeds exactly when the left sample count equals the right
one or exceeds it by one, and on success the output interleaves the two
inputs in full, with length len(left) + len(right); every other length
mismatch raises ValueError at the extended slice assignment. -/
theorem c4_amended (hl : WaveHeader) (dl : WaveData) (hr : WaveHeader)
    (dr : WaveData) (h1 : hl.numChannels = 1) (h2 : hr.numChannels = 1) :
    ((∃ hd, mono2estereoTrans hl dl hr dr = .ok hd) ↔
      (dl.data.length = dr.data.length ∨
       dl.data.length = dr.data.length + 1)) ∧
    (∀ h' d', mono2estereoTrans hl dl hr dr = .ok (h', d') →
      d'.data = interleave dl.data dr.data ∧
      d'.data.length = dl.data.length + dr.data.length) := by
  constructor
  · constructor
    · rintro ⟨hd, he⟩
      simp only [mono2estereoTrans, h1, h2] at he
      cases e : combineLR dl.data dr.data with
      | error ex => simp [e] at he
      | ok out => exact (combineLR_eq_ok.mp e).1
    · intro hcond
      have e : combineLR dl.data dr.data = .ok (interleave dl.data dr.data) :=
        combineLR_eq_ok.mpr ⟨hcond, rfl⟩
      simp only [mono2estereoTrans]
      rw [if_neg (by simp [h1]), if_neg (by simp [h2]), e]
      exact ⟨_, rfl⟩
  · intro h' d' he
    simp only [mono2estereoTrans] at he
    rw [if_neg (by simp [h1]), if_neg (by simp [h2])] at he
    cases e : combineLR dl.data dr.data with
    | error ex => rw [e] at he; exact absurd he (by simp)
    | ok out =>
        rw [e] at he
        simp only [Except.ok.injEq, Prod.mk.injEq] at he
        obtain ⟨hcond, hout⟩ := combineLR_eq_ok.mp e
        have hdata : d'.data = out := by rw [← he.2]
        rw [hdata, hout]
        exact ⟨rfl, interleave_length _ _⟩

/-- Witness for c4_amended: equal-length mono inputs interleave fully. -/
theorem c4_amended_witness :
    ([1, 3, 2] : List Int) = interleave [1, 2] [3] ∧
    ([1, 3, 2] : List Int).length = ([1, 2] : List Int).length + ([3] : List Int).length :=
  (c4_amended exMonoHeader16
    { subChunk2ID := dataBytes, subChunk2Size := 4, data := [1, 2] }
    exMonoHeader16
    { subChunk2ID := dataBytes, subChunk2Size := 2, data := [3] }
    (by decide) (by decide)).2
    exStereoHeader
    { subChunk2ID := dataBytes, subChunk2Size := 8, data := [1, 3, 2] }
    (by decide)

end Estereo

namespace Estereo

theorem emodConv (a b : Int) : Int.emod a b = a % b := rfl

theorem edivConv (a b : Int) : Int.ediv a b = a / b := rfl

theorem leToNat_natToLE2 (u : Nat) : leToNat (natToLE 2 u) = u % 65536 := by
  show u % 256 + 256 * (u / 256 % 256 + 256 * 0) = u % 65536
  omega

theorem leToNat_natToLE4 (u : Nat) : leToNat (natToLE 4 u) = u % 4294967296 := by
  show u % 256 + 256 * (u / 256 % 256 + 256 * (u / 256 / 256 % 256 +
    256 * (u / 256 / 256 / 256 % 256 + 256 * 0))) = u % 4294967296
  omega

theorem leToNat_natToLE1 (u : Nat) : leToNat (natToLE 1 u) = u % 256 := by
  show u % 256 + 256 * 0 = u % 256
  omega

theorem leToNat_append (xs ys : List Nat) :
    leToNat (xs ++ ys) = leToNat xs + 256 ^ xs.length * leToNat ys := by
  induction xs with
  | nil => simp [leToNat]
  | cons b bs ih =>
      show b + 256 * leToNat (bs ++ ys) =
        b + 256 * leToNat bs + 256 ^ (bs.length + 1) * leToNat ys
      rw [ih, pow_succ]
      ring

theorem leToInt_natToLE2 (q : Nat) (hq : q < 65536) :
    leToInt (natToLE 2 q) = if q < 32768 then (q : Int) else (q : Int) - 65536 := by
  unfold leToInt
  rw [natToLE_length, leToNat_natToLE2, Nat.mod_eq_of_lt hq]
  norm_num
  split_ifs <;> omega

theorem decSemiSum_eq (p : Int) :
    decSemiSum p = (p.fdiv 65536 + 32768).emod 65536 - 32768 := by
  unfold decSemiSum
  rw [emodConv, emodConv]
  generalize p.fdiv 65536 = x
  have h0 : (0:Int) ≤ x % 65536 := Int.emod_nonneg _ (by decide)
  have h1 : x % 65536 < 65536 := Int.emod_lt_of_pos _ (by decide)
  rw [leToInt_natToLE2 _ (by omega)]
  split_ifs <;> omega

theorem decSemiDiff_eq (p : Int) :
    decSemiDiff p = (p + 32768).emod 65536 - 32768 := by
  unfold decSemiDiff
  rw [emodConv, emodConv]
  have h0 : (0:Int) ≤ p % 65536 := Int.emod_nonneg _ (by decide)
  have h1 : p % 65536 < 65536 := Int.emod_lt_of_pos _ (by decide)
  rw [leToInt_natToLE2 _ (by omega)]
  split_ifs <;> omega

theorem pack32_val (s t : Int) (hs : -32768 ≤ s ∧ s ≤ 32767)
    (ht : -32768 ≤ t ∧ t ≤ 32767) :
    leToInt (intToLE 2 s ++ intToLE 2 t) =
      (s.emod 65536 + 65536 * t.emod 65536 + 2147483648).emod 4294967296 -
        2147483648 := by
  unfold leToInt
  rw [List.length_append, intToLE_length, intToLE_length, leToNat_append,
    intToLE_length]
  unfold intToLE
  rw [leToNat_natToLE2, leToNat_natToLE2]
  simp only [emodConv]
  norm_num
  have hs0 : (0:Int) ≤ s % 65536 := Int.emod_nonneg _ (by decide)
  have hs1 : s % 65536 < 65536 := Int.emod_lt_of_pos _ (by decide)
  have ht0 : (0:Int) ≤ t % 65536 := Int.emod_nonneg _ (by decide)
  have ht1 : t % 65536 < 65536 := Int.emod_lt_of_pos _ (by decide)
  split_ifs <;> push_cast <;> omega

theorem dec_of_enc (a b : Int) (ha : -32768 ≤ a ∧ a ≤ 32767)
    (hb : -32768 ≤ b ∧ b ≤ 32767) :
    decSemiSum (encSample a b) = halfDiff a b ∧
    decSemiDiff (encSample a b) = halfSum a b := by
  have hs := halfSum_bounds ha hb
  have ht := halfDiff_bounds ha hb
  have hp := pack32_val (halfSum a b) (halfDiff a b) hs ht
  unfold encSample
  rw [hp, decSemiSum_eq, decSemiDiff_eq]
  rw [Int.fdiv_eq_ediv _ (by decide)]
  simp only [emodConv]
  constructor <;> omega

end Estereo

namespace Estereo

theorem every2_interleave : ∀ {l r : List α}, l.length = r.length →
    every2 true (interleave l r) = l ∧ every2 false (interleave l r) = r := by
  intro l
  induction l with
  | nil =>
      intro r h
      cases r with
      | nil => exact ⟨rfl, rfl⟩
      | cons b r' => simp at h
  | cons a l' ih =>
      intro r h
      cases r with
      | nil => simp at h
      | cons b r' =>
          have hl : l'.length = r'.length := by simpa using h
          obtain ⟨h1, h2⟩ := ih hl
          simp only [interleave, every2]
          exact ⟨by rw [h1], by rw [h2]⟩

theorem mapSemiBytes_ok (xs : List Int)
    (h : ∀ x ∈ xs, -32768 ≤ x ∧ x ≤ 32767) :
    mapSemiBytes xs = .ok (xs.map (intToLE 2)) := by
  induction xs with
  | nil => rfl
  | cons v vs ih =>
      have hv := h v (List.mem_cons_self v vs)
      simp only [mapSemiBytes, toBytes16, if_pos hv]
      rw [ih (fun x hx => h x (List.mem_cons_of_mem _ hx))]
      simp

theorem zipWith_zipWith_same {f : γ → δ → ε} {g : α → β → γ} {k : α → β → δ} :
    ∀ (l : List α) (r : List β),
      List.zipWith f (List.zipWith g l r) (List.zipWith k l r) =
        List.zipWith (fun a b => f (g a b) (k a b)) l r := by
  intro l
  induction l with
  | nil => intro r; rfl
  | cons a l' ih =>
      intro r
      cases r with
      | nil => rfl
      | cons b r' => simp [List.zipWith_cons_cons, ih]

theorem zipWith_snd_map {f : β → γ} : ∀ {l : List α} {r : List β},
    l.length = r.length →
    List.zipWith (fun _ b => f b) l r = r.map f := by
  intro l
  induction l with
  | nil =>
      intro r h
      cases r with
      | nil => rfl
      | cons b r' => simp at h
  | cons a l' ih =>
      intro r h
      cases r with
      | nil => simp at h
      | cons b r' =>
          have hl : l'.length = r'.length := by simpa using h
          simp [List.zipWith_cons_cons, ih hl]

theorem dec_enc_lists : ∀ {l r : List Int}, l.length = r.length →
    (∀ x ∈ l, -32768 ≤ x ∧ x ≤ 32767) →
    (∀ x ∈ r, -32768 ≤ x ∧ x ≤ 32767) →
    (List.zipWith encSample l r).map decSemiSum = List.zipWith halfDiff l r ∧
    (List.zipWith encSample l r).map decSemiDiff = List.zipWith halfSum l r := by
  intro l
  induction l with
  | nil => intro r _ _ _; exact ⟨rfl, rfl⟩
  | cons a l' ih =>
      intro r hlen hl hr
      cases r with
      | nil => simp at hlen
      | cons b r' =>
          have hlen' : l'.length = r'.length := by simpa using hlen
          have ha := hl a (List.mem_cons_self a l')
          have hb := hr b (List.mem_cons_self b r')
          obtain ⟨e1, e2⟩ := dec_of_enc a b ha hb
          obtain ⟨i1, i2⟩ := ih hlen'
            (fun x hx => hl x (List.mem_cons_of_mem _ hx))
            (fun x hx => hr x (List.mem_cons_of_mem _ hx))
          simp [List.zipWith_cons_cons, e1, e2, i1, i2]

theorem codEstereoData_interleave (l r : List Int)
    (hlen : l.length = r.length)
    (hl : ∀ x ∈ l, -32768 ≤ x ∧ x ≤ 32767)
    (hr : ∀ x ∈ r, -32768 ≤ x ∧ x ≤ 32767) :
    codEstereoData (interleave l r) = .ok (List.zipWith encSample l r) := by
  obtain ⟨hev, hod⟩ := every2_interleave hlen
  have hsum : ∀ x ∈ List.zipWith halfSum l r, -32768 ≤ x ∧ x ≤ 32767 := by
    intro x hx
    obtain ⟨a, ha, b, hb, rfl⟩ := exists_of_mem_zipWith hx
    exact halfSum_bounds (hl a ha) (hr b hb)
  have hdiff : ∀ x ∈ List.zipWith halfDiff l r, -32768 ≤ x ∧ x ≤ 32767 := by
    intro x hx
    obtain ⟨a, ha, b, hb, rfl⟩ := exists_of_mem_zipWith hx
    exact halfDiff_bounds (hl a ha) (hr b hb)
  simp only [codEstereoData, hev, hod]
  rw [mapSemiBytes_ok _ hsum, mapSemiBytes_ok _ hdiff]
  simp only [List.zipWith_map, zipWith_zipWith_same]
  rfl

theorem decEstereoData_enc (l r : List Int) (hlen : l.length = r.length)
    (hl : ∀ x ∈ l, -32768 ≤ x ∧ x ≤ 32767)
    (hr : ∀ x ∈ r, -32768 ≤ x ∧ x ≤ 32767) :
    decEstereoData (List.zipWith encSample l r) =
      .ok (interleave (List.zipWith (fun a b => a - (a + b) % 2) l r)
                      (r.map (fun b => -b))) := by
  obtain ⟨hsum, hdiff⟩ := dec_enc_lists hlen hl hr
  simp only [decEstereoData, hsum, hdiff, zipWith_zipWith_same]
  have hleft : (fun a b : Int => halfDiff a b + halfSum a b) =
      fun a b : Int => a - (a + b) % 2 := by
    funext a b
    unfold halfSum halfDiff
    rw [Int.fdiv_eq_ediv _ (by decide), Int.fdiv_eq_ediv _ (by decide)]
    omega
  have hright : (fun a b : Int => halfDiff a b - halfSum a b) =
      fun a b : Int => -b := by
    funext a b
    unfold halfSum halfDiff
    rw [Int.fdiv_eq_ediv _ (by decide), Int.fdiv_eq_ediv _ (by decide)]
    omega
  rw [hleft, hright, zipWith_snd_map hlen]
  refine combineLR_eq_ok.mpr ⟨Or.inl ?_, rfl⟩
  simp [List.length_zipWith, List.length_map, hlen]

/-- C1 counterexample: the joint-stereo round trip is not the identity:
for left = [10], right = [4] the encoder produces the packed sample 196615
and the decoder returns the interleaved channels [10, -4], negating the
right channel, instead of the original [10, 4]. -/
theorem c1_roundtrip_counterexample :
    codEstereoData (interleave [10] [4]) = .ok [196615] ∧
    decEstereoData [196615] = .ok [10, -4] ∧
    interleave [10] [4] ≠ ([10, -4] : List Int) := by
  refine ⟨by decide, by decide, by decide⟩

/-- C1 amended: for equal-length 16-bit channels, decoding the encoding
yields, per pair, left-out = left - ((left + right) mod 2) (exact when
left + right is even, one less when odd, from the floor halving) and
right-out = -right (negated, from the swapped half extraction in the
decoder); the round trip is not the identity. -/
theorem c1_amended (l r : List Int) (hlen : l.length = r.length)
    (hl : ∀ x ∈ l, -32768 ≤ x ∧ x ≤ 32767)
    (hr : ∀ x ∈ r, -32768 ≤ x ∧ x ≤ 32767) :
    codEstereoData (interleave l r) = .ok (List.zipWith encSample l r) ∧
    decEstereoData (List.zipWith encSample l r) =
      .ok (interleave (List.zipWith (fun a b => a - (a + b) % 2) l r)
                      (r.map (fun b => -b))) :=
  ⟨codEstereoData_interleave l r hlen hl hr,
   decEstereoData_enc l r hlen hl hr⟩

/-- Witness for c1_amended at left = [3], right = [2]: the encoder packs
semi-sum 2 and semi-difference 0, and the decoder returns [2, -2]. -/
theorem c1_amended_witness :
    codEstereoData (interleave [3] [2]) = .ok (List.zipWith encSample [3] [2]) ∧
    decEstereoData (List.zipWith encSample [3] [2]) =
      .ok (interleave (List.zipWith (fun a b => a - (a + b) % 2) [3] [2])
                      (List.map (fun b => -b) [2])) :=
  c1_amended [3] [2] rfl (by decide) (by decide)

end Estereo

namespace Estereo

theorem waveBytes_length : waveBytes.length = 4 := rfl

theorem leToNat_natToLE1_of_lt (v : Nat) (hv : v < 256) :
    leToNat (natToLE 1 v) = v := by
  rw [leToNat_natToLE1]
  omega

theorem leToNat_natToLE2_of_lt (v : Nat) (hv : v < 65536) :
    leToNat (natToLE 2 v) = v := by
  rw [leToNat_natToLE2]
  omega

theorem leToNat_natToLE4_of_lt (v : Nat) (hv : v < 4294967296) :
    leToNat (natToLE 4 v) = v := by
  rw [leToNat_natToLE4]
  omega

theorem leToInt_intToLE1 (v : Int) (h1 : -128 ≤ v) (h2 : v < 128) :
    leToInt (intToLE 1 v) = v := by
  unfold leToInt intToLE
  rw [natToLE_length, leToNat_natToLE1, emodConv]
  norm_num
  have e0 : (0:Int) ≤ v % 256 := Int.emod_nonneg _ (by decide)
  have e1 : v % 256 < 256 := Int.emod_lt_of_pos _ (by decide)
  split_ifs <;> omega

theorem leToInt_intToLE2' (v : Int) (h1 : -32768 ≤ v) (h2 : v < 32768) :
    leToInt (intToLE 2 v) = v := by
  unfold leToInt intToLE
  rw [natToLE_length, leToNat_natToLE2, emodConv]
  norm_num
  have e0 : (0:Int) ≤ v % 65536 := Int.emod_nonneg _ (by decide)
  have e1 : v % 65536 < 65536 := Int.emod_lt_of_pos _ (by decide)
  split_ifs <;> omega

theorem leToInt_intToLE4 (v : Int) (h1 : -2147483648 ≤ v) (h2 : v < 2147483648) :
    leToInt (intToLE 4 v) = v := by
  unfold leToInt intToLE
  rw [natToLE_length, leToNat_natToLE4, emodConv]
  norm_num
  have e0 : (0:Int) ≤ v % 4294967296 := Int.emod_nonneg _ (by decide)
  have e1 : v % 4294967296 < 4294967296 := Int.emod_lt_of_pos _ (by decide)
  split_ifs <;> omega

theorem pack4s_of_len4 (s : List Nat) (h : s.length = 4) : pack4s s = s := by
  unfold pack4s
  rw [h]
  simp [List.take_of_length_le (le_of_eq h)]

theorem samplesToBytes_nil (w : Nat) : samplesToBytes w [] = [] := rfl

theorem samplesToBytes_cons (w : Nat) (x : Int) (xs : List Int) :
    samplesToBytes w (x :: xs) = intToLE w x ++ samplesToBytes w xs := rfl

theorem samplesToBytes_length (w : Nat) (xs : List Int) :
    (samplesToBytes w xs).length = w * xs.length := by
  induction xs with
  | nil => simp [samplesToBytes_nil]
  | cons x xs ih =>
      rw [samplesToBytes_cons]
      simp [intToLE_length, ih]
      ring

theorem bytesToSamplesF_congr : ∀ (f1 f2 w : Nat) (bs : List Nat),
    bs.length ≤ f1 → bs.length ≤ f2 →
    bytesToSamplesF f1 w bs = bytesToSamplesF f2 w bs := by
  intro f1
  induction f1 with
  | zero =>
      intro f2 w bs h1 h2
      have : bs = [] := List.eq_nil_of_length_eq_zero (by omega)
      subst this
      cases f2 <;> rfl
  | succ f1 ih =>
      intro f2 w bs h1 h2
      cases bs with
      | nil => cases f2 <;> rfl
      | cons b rest =>
          cases f2 with
          | zero => simp at h2
          | succ f2 =>
              simp only [bytesToSamplesF]
              congr 1
              refine ih f2 w (rest.drop (w - 1)) ?_ ?_ <;>
                simp only [List.length_drop, List.length_cons] at h1 h2 ⊢ <;>
                omega

theorem bytesToSamples_append (w : Nat) (hw : 1 ≤ w) (ys rest : List Nat)
    (hy : ys.length = w) :
    bytesToSamples w (ys ++ rest) = leToInt ys :: bytesToSamples w rest := by
  cases ys with
  | nil => simp at hy; omega
  | cons y ys' =>
      have hys : ys'.length = w - 1 := by simp at hy; omega
      unfold bytesToSamples
      have hL : ((y :: ys') ++ rest).length = (ys' ++ rest).length + 1 := by
        simp
      rw [hL]
      show leToInt (((y :: ys') ++ rest).take w) ::
          bytesToSamplesF (ys' ++ rest).length w ((ys' ++ rest).drop (w - 1)) =
          leToInt (y :: ys') :: bytesToSamplesF rest.length w rest
      rw [List.take_left' hy, List.drop_left' hys]
      congr 1
      exact bytesToSamplesF_congr _ _ _ _ (by simp) (le_refl _)

theorem bytesToSamples_samplesToBytes (w : Nat) (hw : 1 ≤ w)
    (xs : List Int) (hx : ∀ x ∈ xs, leToInt (intToLE w x) = x) :
    bytesToSamples w (samplesToBytes w xs) = xs := by
  induction xs with
  | nil => rfl
  | cons x xs ih =>
      rw [samplesToBytes_cons,
        bytesToSamples_append w hw _ _ (intToLE_length w x),
        hx x (List.mem_cons_self x xs),
        ih (fun y hy => hx y (List.mem_cons_of_mem _ hy))]

end Estereo


namespace Estereo

theorem drop_add_append {α} {xs : List α} (ys : List α) {n k m : Nat}
    (h : xs.length = n) (hk : k = n + m) :
    (xs ++ ys).drop k = ys.drop m := by
  subst hk
  rw [← List.drop_drop, List.drop_left' h]

theorem readData_chain (cid : List Nat) (cs : Nat) (fmt : List Nat)
    (s1 : List Nat) (s1s af nc sr br ba bits : Nat)
    (s2 : List Nat) (s2s : Nat) (tail : List Nat) (w : Nat)
    (hs2 : s2.length = 4) (hs2s : s2s < 4294967296)
    (hw : (if bits = 8 then some 1 else if bits = 16 then some 2
           else if bits = 32 then some 4 else none : Option Nat) = some w)
    (hmod : tail.length % w = 0) :
    readData cid cs fmt s1 s1s af nc sr br ba bits
      (s2 ++ natToLE 4 s2s ++ tail) =
      .ok ({ chunkID := cid, chunkSize := cs, format := fmt,
             subChunk1ID := s1, subChunk1Size := s1s, audioFormat := af,
             numChannels := nc, sampleRate := sr, byteRate := br,
             blockAlign := ba, bitsPerSample := bits },
           { subChunk2ID := s2, subChunk2Size := s2s,
             data := bytesToSamples w tail }) := by
  have d8 : (s2 ++ (natToLE 4 s2s ++ tail)).drop 8 = tail := by
    rw [drop_add_append _ hs2 (show (8:Nat) = 4 + 4 from rfl),
      List.drop_left' (natToLE_length 4 s2s)]
  have d4 : (s2 ++ (natToLE 4 s2s ++ tail)).drop 4 = natToLE 4 s2s ++ tail :=
    List.drop_left' hs2
  unfold readData
  rw [if_neg (by
    simp only [List.append_assoc, List.length_append, natToLE_length, hs2]
    omega)]
  split
  · next heq => rw [hw] at heq; cases heq
  · next w' heq =>
      rw [hw] at heq
      injection heq with hww
      subst hww
      rw [List.append_assoc, d8, d4, List.take_left' hs2,
        List.take_left' (natToLE_length 4 s2s),
        leToNat_natToLE4_of_lt s2s hs2s, if_neg (by omega)]

theorem readFmt_chain (cid : List Nat) (cs : Nat)
    (s1 : List Nat) (s1s af nc sr br ba bits : Nat) (u : List Nat)
    (hs1 : s1.length = 4) (hs1s : s1s < 4294967296) (haf : af < 65536)
    (hnc : nc < 65536) (hsr : sr < 4294967296) (hbr : br < 4294967296)
    (hba : ba < 65536) (hbits : bits < 65536) :
    readFmt cid cs waveBytes
      (s1 ++ natToLE 4 s1s ++ natToLE 2 af ++ natToLE 2 nc ++
       natToLE 4 sr ++ natToLE 4 br ++ natToLE 2 ba ++ natToLE 2 bits ++ u) =
      readData cid cs waveBytes s1 s1s af nc sr br ba bits u := by
  have n4s1s := natToLE_length 4 s1s
  have n2af := natToLE_length 2 af
  have n2nc := natToLE_length 2 nc
  have n4sr := natToLE_length 4 sr
  have n4br := natToLE_length 4 br
  have n2ba := natToLE_length 2 ba
  have n2bits := natToLE_length 2 bits
  have d4 : (s1 ++ (natToLE 4 s1s ++ (natToLE 2 af ++ (natToLE 2 nc ++
      (natToLE 4 sr ++ (natToLE 4 br ++ (natToLE 2 ba ++
      (natToLE 2 bits ++ u)))))))).drop 4 =
      natToLE 4 s1s ++ (natToLE 2 af ++ (natToLE 2 nc ++ (natToLE 4 sr ++
      (natToLE 4 br ++ (natToLE 2 ba ++ (natToLE 2 bits ++ u)))))) :=
    List.drop_left' hs1
  have d8 : (s1 ++ (natToLE 4 s1s ++ (natToLE 2 af ++ (natToLE 2 nc ++
      (natToLE 4 sr ++ (natToLE 4 br ++ (natToLE 2 ba ++
      (natToLE 2 bits ++ u)))))))).drop 8 =
      natToLE 2 af ++ (natToLE 2 nc ++ (natToLE 4 sr ++ (natToLE 4 br ++
      (natToLE 2 ba ++ (natToLE 2 bits ++ u))))) := by
    rw [drop_add_append _ hs1 (show (8:Nat) = 4 + 4 from rfl),
      List.drop_left' n4s1s]
  have d10 : (s1 ++ (natToLE 4 s1s ++ (natToLE 2 af ++ (natToLE 2 nc ++
      (natToLE 4 sr ++ (natToLE 4 br ++ (natToLE 2 ba ++
      (natToLE 2 bits ++ u)))))))).drop 10 =
      natToLE 2 nc ++ (natToLE 4 sr ++ (natToLE 4 br ++ (natToLE 2 ba ++
      (natToLE 2 bits ++ u)))) := by
    rw [drop_add_append _ hs1 (show (10:Nat) = 4 + 6 from rfl),
      drop_add_append _ n4s1s (show (6:Nat) = 4 + 2 from rfl),
      List.drop_left' n2af]
  have d12 : (s1 ++ (natToLE 4 s1s ++ (natToLE 2 af ++ (natToLE 2 nc ++
      (natToLE 4 sr ++ (natToLE 4 br ++ (natToLE 2 ba ++
      (natToLE 2 bits ++ u)))))))).drop 12 =
      natToLE 4 sr ++ (natToLE 4 br ++ (natToLE 2 ba ++
      (natToLE 2 bits ++ u))) := by
    rw [drop_add_append _ hs1 (show (12:Nat) = 4 + 8 from rfl),
      drop_add_append _ n4s1s (show (8:Nat) = 4 + 4 from rfl),
      drop_add_append _ n2af (show (4:Nat) = 2 + 2 from rfl),
      List.drop_left' n2nc]
  have d16 : (s1 ++ (natToLE 4 s1s ++ (natToLE 2 af ++ (natToLE 2 nc ++
      (natToLE 4 sr ++ (natToLE 4 br ++ (natToLE 2 ba ++
      (natToLE 2 bits ++ u)))))))).drop 16 =
      natToLE 4 br ++ (natToLE 2 ba ++ (natToLE 2 bits ++ u)) := by
    rw [drop_add_append _ hs1 (show (16:Nat) = 4 + 12 from rfl),
      drop_add_append _ n4s1s (show (12:Nat) = 4 + 8 from rfl),
      drop_add_append _ n2af (show (8:Nat) = 2 + 6 from rfl),
      drop_add_append _ n2nc (show (6:Nat) = 2 + 4 from rfl),
      List.drop_left' n4sr]
  have d20 : (s1 ++ (natToLE 4 s1s ++ (natToLE 2 af ++ (natToLE 2 nc ++
      (natToLE 4 sr ++ (natToLE 4 br ++ (natToLE 2 ba ++
      (natToLE 2 bits ++ u)))))))).drop 20 =
      natToLE 2 ba ++ (natToLE 2 bits ++ u) := by
    rw [drop_add_append _ hs1 (show (20:Nat) = 4 + 16 from rfl),
      drop_add_append _ n4s1s (show (16:Nat) = 4 + 12 from rfl),
      drop_add_append _ n2af (show (12:Nat) = 2 + 10 from rfl),
      drop_add_append _ n2nc (show (10:Nat) = 2 + 8 from rfl),
      drop_add_append _ n4sr (show (8:Nat) = 4 + 4 from rfl),
      List.drop_left' n4br]
  have d22 : (s1 ++ (natToLE 4 s1s ++ (natToLE 2 af ++ (natToLE 2 nc ++
      (natToLE 4 sr ++ (natToLE 4 br ++ (natToLE 2 ba ++
      (natToLE 2 bits ++ u)))))))).drop 22 =
      natToLE 2 bits ++ u := by
    rw [drop_add_append _ hs1 (show (22:Nat) = 4 + 18 from rfl),
      drop_add_append _ n4s1s (show (18:Nat) = 4 + 14 from rfl),
      drop_add_append _ n2af (show (14:Nat) = 2 + 12 from rfl),
      drop_add_append _ n2nc (show (12:Nat) = 2 + 10 from rfl),
      drop_add_append _ n4sr (show (10:Nat) = 4 + 6 from rfl),
      drop_add_append _ n4br (show (6:Nat) = 4 + 2 from rfl),
      List.drop_left' n2ba]
  have d24 : (s1 ++ (natToLE 4 s1s ++ (natToLE 2 af ++ (natToLE 2 nc ++
      (natToLE 4 sr ++ (natToLE 4 br ++ (natToLE 2 ba ++
      (natToLE 2 bits ++ u)))))))).drop 24 = u := by
    rw [drop_add_append _ hs1 (show (24:Nat) = 4 + 20 from rfl),
      drop_add_append _ n4s1s (show (20:Nat) = 4 + 16 from rfl),
      drop_add_append _ n2af (show (16:Nat) = 2 + 14 from rfl),
      drop_add_append _ n2nc (show (14:Nat) = 2 + 12 from rfl),
      drop_add_append _ n4sr (show (12:Nat) = 4 + 8 from rfl),
      drop_add_append _ n4br (show (8:Nat) = 4 + 4 from rfl),
      drop_add_append _ n2ba (show (4:Nat) = 2 + 2 from rfl),
      List.drop_left' n2bits]
  unfold readFmt
  rw [if_neg (by simp)]
  rw [if_neg (by
    simp only [List.append_assoc, List.length_append, natToLE_length, hs1]
    omega)]
  simp only [List.append_assoc] at d4 d8 d10 d12 d16 d20 d22 d24 ⊢
  rw [d4, d8, d10, d12, d16, d20, d22, d24, List.take_left' hs1,
    List.take_left' n4s1s, List.take_left' n2af, List.take_left' n2nc,
    List.take_left' n4sr, List.take_left' n4br, List.take_left' n2ba,
    List.take_left' n2bits, leToNat_natToLE4_of_lt s1s hs1s,
    leToNat_natToLE2_of_lt af haf, leToNat_natToLE2_of_lt nc hnc,
    leToNat_natToLE4_of_lt sr hsr, leToNat_natToLE4_of_lt br hbr,
    leToNat_natToLE2_of_lt ba hba, leToNat_natToLE2_of_lt bits hbits]

end Estereo

namespace Estereo

theorem read_chain (c0 : List Nat) (cs : Nat) (s1 : List Nat)
    (s1s af nc sr br ba bits : Nat) (s2 : List Nat) (s2s : Nat)
    (tail : List Nat) (w : Nat)
    (hc0 : c0.length = 4) (hs1 : s1.length = 4) (hs2 : s2.length = 4)
    (hcs : cs < 4294967296) (hs1s : s1s < 4294967296) (haf : af < 65536)
    (hnc : nc < 65536) (hsr : sr < 4294967296) (hbr : br < 4294967296)
    (hba : ba < 65536) (hbits : bits < 65536) (hs2s : s2s < 4294967296)
    (hw : (if bits = 8 then some 1 else if bits = 16 then some 2
           else if bits = 32 then some 4 else none : Option Nat) = some w)
    (hmod : tail.length % w = 0) :
    read_wave (c0 ++ natToLE 4 cs ++ waveBytes ++ s1 ++ natToLE 4 s1s ++
      natToLE 2 af ++ natToLE 2 nc ++ natToLE 4 sr ++ natToLE 4 br ++
      natToLE 2 ba ++ natToLE 2 bits ++ s2 ++ natToLE 4 s2s ++ tail) =
      .ok ({ chunkID := c0, chunkSize := cs, format := waveBytes,
             subChunk1ID := s1, subChunk1Size := s1s, audioFormat := af,
             numChannels := nc, sampleRate := sr, byteRate := br,
             blockAlign := ba, bitsPerSample := bits },
           { subChunk2ID := s2, subChunk2Size := s2s,
             data := bytesToSamples w tail }) := by
  have n4cs := natToLE_length 4 cs
  have dd4 : (c0 ++ (natToLE 4 cs ++ (waveBytes ++ (s1 ++ (natToLE 4 s1s ++
      (natToLE 2 af ++ (natToLE 2 nc ++ (natToLE 4 sr ++ (natToLE 4 br ++
      (natToLE 2 ba ++ (natToLE 2 bits ++ (s2 ++ (natToLE 4 s2s ++
      tail))))))))))))).drop 4 =
      natToLE 4 cs ++ (waveBytes ++ (s1 ++ (natToLE 4 s1s ++ (natToLE 2 af ++
      (natToLE 2 nc ++ (natToLE 4 sr ++ (natToLE 4 br ++ (natToLE 2 ba ++
      (natToLE 2 bits ++ (s2 ++ (natToLE 4 s2s ++ tail))))))))))) :=
    List.drop_left' hc0
  have dd8 : (c0 ++ (natToLE 4 cs ++ (waveBytes ++ (s1 ++ (natToLE 4 s1s ++
      (natToLE 2 af ++ (natToLE 2 nc ++ (natToLE 4 sr ++ (natToLE 4 br ++
      (natToLE 2 ba ++ (natToLE 2 bits ++ (s2 ++ (natToLE 4 s2s ++
      tail))))))))))))).drop 8 =
      waveBytes ++ (s1 ++ (natToLE 4 s1s ++ (natToLE 2 af ++ (natToLE 2 nc ++
      (natToLE 4 sr ++ (natToLE 4 br ++ (natToLE 2 ba ++ (natToLE 2 bits ++
      (s2 ++ (natToLE 4 s2s ++ tail)))))))))) := by
    rw [drop_add_append _ hc0 (show (8:Nat) = 4 + 4 from rfl),
      List.drop_left' n4cs]
  have dd12 : (c0 ++ (natToLE 4 cs ++ (waveBytes ++ (s1 ++ (natToLE 4 s1s ++
      (natToLE 2 af ++ (natToLE 2 nc ++ (natToLE 4 sr ++ (natToLE 4 br ++
      (natToLE 2 ba ++ (natToLE 2 bits ++ (s2 ++ (natToLE 4 s2s ++
      tail))))))))))))).drop 12 =
      s1 ++ (natToLE 4 s1s ++ (natToLE 2 af ++ (natToLE 2 nc ++
      (natToLE 4 sr ++ (natToLE 4 br ++ (natToLE 2 ba ++ (natToLE 2 bits ++
      (s2 ++ (natToLE 4 s2s ++ tail))))))))) := by
    rw [drop_add_append _ hc0 (show (12:Nat) = 4 + 8 from rfl),
      drop_add_append _ n4cs (show (8:Nat) = 4 + 4 from rfl),
      List.drop_left' waveBytes_length]
  unfold read_wave
  rw [if_neg (by
    simp only [List.append_assoc, List.length_append, natToLE_length, hc0]
    omega)]
  simp only [List.append_assoc] at dd4 dd8 dd12 ⊢
  rw [dd4, dd8, dd12, List.take_left' hc0, List.take_left' n4cs,
    List.take_left' waveBytes_length, leToNat_natToLE4_of_lt cs hcs]
  rw [show s1 ++ (natToLE 4 s1s ++ (natToLE 2 af ++ (natToLE 2 nc ++
      (natToLE 4 sr ++ (natToLE 4 br ++ (natToLE 2 ba ++ (natToLE 2 bits ++
      (s2 ++ (natToLE 4 s2s ++ tail))))))))) =
      s1 ++ natToLE 4 s1s ++ natToLE 2 af ++ natToLE 2 nc ++ natToLE 4 sr ++
      natToLE 4 br ++ natToLE 2 ba ++ natToLE 2 bits ++
      (s2 ++ natToLE 4 s2s ++ tail) from by simp [List.append_assoc]]
  rw [readFmt_chain c0 cs s1 s1s af nc sr br ba bits _
    hs1 hs1s haf hnc hsr hbr hba hbits]
  exact readData_chain c0 cs waveBytes s1 s1s af nc sr br ba bits s2 s2s
    tail w hs2 hs2s hw hmod

theorem write_wave_eq (h : WaveHeader) (d : WaveData) (w : Nat)
    (hfmt : h.format = waveBytes)
    (hranges : h.chunkSize < 2 ^ 32 ∧ h.subChunk1Size < 2 ^ 32 ∧
      h.audioFormat < 2 ^ 16 ∧ h.numChannels < 2 ^ 16 ∧
      h.sampleRate < 2 ^ 32 ∧ h.byteRate < 2 ^ 32 ∧
      h.blockAlign < 2 ^ 16 ∧ h.bitsPerSample < 2 ^ 16 ∧
      d.subChunk2Size < 2 ^ 32)
    (hw : (if h.bitsPerSample = 8 then some 1
           else if h.bitsPerSample = 16 then some 2
           else if h.bitsPerSample = 32 then some 4
           else none : Option Nat) = some w)
    (hsamp : ∀ x ∈ d.data, -(2 ^ (8 * w - 1)) ≤ x ∧ x < 2 ^ (8 * w - 1)) :
    write_wave h d =
      .ok (pack4s h.chunkID ++ natToLE 4 h.chunkSize ++ pack4s h.format ++
        pack4s h.subChunk1ID ++ natToLE 4 h.subChunk1Size ++
        natToLE 2 h.audioFormat ++ natToLE 2 h.numChannels ++
        natToLE 4 h.sampleRate ++ natToLE 4 h.byteRate ++
        natToLE 2 h.blockAlign ++ natToLE 2 h.bitsPerSample ++
        pack4s d.subChunk2ID ++ natToLE 4 d.subChunk2Size ++
        samplesToBytes w d.data) := by
  unfold write_wave
  rw [if_neg (by simp [hfmt]), if_neg (not_not_intro hranges)]
  simp only [hw]
  rw [if_neg (not_not_intro hsamp)]

end Estereo

namespace Estereo

/-- C5: for every valid header and data pair (WAVE magic, 4-byte IDs,
fields within their unsigned widths, BitsPerSample in {8, 16, 32}, samples
within the signed range of the width), write_wave succeeds and read_wave
on the produced bytes returns the header and data unchanged. -/
theorem c5_read_write_roundtrip (h : WaveHeader) (d : WaveData)
    (hcid : h.chunkID.length = 4)
    (hfmt : h.format = waveBytes)
    (h1id : h.subChunk1ID.length = 4)
    (h2id : d.subChunk2ID.length = 4)
    (hcs : h.chunkSize < 4294967296)
    (h1s : h.subChunk1Size < 4294967296)
    (haf : h.audioFormat < 65536)
    (hnc : h.numChannels < 65536)
    (hsr : h.sampleRate < 4294967296)
    (hbr : h.byteRate < 4294967296)
    (hba : h.blockAlign < 65536)
    (h2s : d.subChunk2Size < 4294967296)
    (hbits : h.bitsPerSample = 8 ∨ h.bitsPerSample = 16 ∨ h.bitsPerSample = 32)
    (hsamp : ∀ x ∈ d.data,
      -(2 ^ (h.bitsPerSample - 1) : Int) ≤ x ∧ x < 2 ^ (h.bitsPerSample - 1)) :
    ∃ bs, write_wave h d = .ok bs ∧ read_wave bs = .ok (h, d) := by
  rcases hbits with hb | hb | hb
  · have hw : (if h.bitsPerSample = 8 then some 1
        else if h.bitsPerSample = 16 then some 2
        else if h.bitsPerSample = 32 then some 4
        else none : Option Nat) = some 1 := by simp [hb]
    have hsamp1 : ∀ x ∈ d.data,
        -(2 ^ (8 * 1 - 1) : Int) ≤ x ∧ x < 2 ^ (8 * 1 - 1) := by
      intro x hx
      have hh := hsamp x hx
      rw [hb] at hh
      exact hh
    have hW := write_wave_eq h d 1 hfmt
      ⟨hcs, h1s, haf, hnc, hsr, hbr, hba, by omega, h2s⟩ hw hsamp1
    rw [hfmt, pack4s_of_len4 _ hcid, pack4s_of_len4 _ h1id,
      pack4s_of_len4 _ h2id, pack4s_of_len4 _ waveBytes_length] at hW
    have hmod : (samplesToBytes 1 d.data).length % 1 = 0 := by omega
    have hR := read_chain h.chunkID h.chunkSize h.subChunk1ID
      h.subChunk1Size h.audioFormat h.numChannels h.sampleRate h.byteRate
      h.blockAlign h.bitsPerSample d.subChunk2ID d.subChunk2Size
      (samplesToBytes 1 d.data) 1 hcid h1id h2id hcs h1s haf hnc hsr hbr
      hba (by omega) h2s hw hmod
    have hround : bytesToSamples 1 (samplesToBytes 1 d.data) = d.data :=
      bytesToSamples_samplesToBytes 1 (by omega) d.data
        (fun x hx => leToInt_intToLE1 x (hsamp1 x hx).1 (hsamp1 x hx).2)
    rw [hround] at hR
    refine ⟨_, hW, ?_⟩
    rw [hR, ← hfmt]
  · have hw : (if h.bitsPerSample = 8 then some 1
        else if h.bitsPerSample = 16 then some 2
        else if h.bitsPerSample = 32 then some 4
        else none : Option Nat) = some 2 := by simp [hb]
    have hsamp1 : ∀ x ∈ d.data,
        -(2 ^ (8 * 2 - 1) : Int) ≤ x ∧ x < 2 ^ (8 * 2 - 1) := by
      intro x hx
      have hh := hsamp x hx
      rw [hb] at hh
      exact hh
    have hW := write_wave_eq h d 2 hfmt
      ⟨hcs, h1s, haf, hnc, hsr, hbr, hba, by omega, h2s⟩ hw hsamp1
    rw [hfmt, pack4s_of_len4 _ hcid, pack4s_of_len4 _ h1id,
      pack4s_of_len4 _ h2id, pack4s_of_len4 _ waveBytes_length] at hW
    have hmod : (samplesToBytes 2 d.data).length % 2 = 0 := by
      rw [samplesToBytes_length]
      omega
    have hR := read_chain h.chunkID h.chunkSize h.subChunk1ID
      h.subChunk1Size h.audioFormat h.numChannels h.sampleRate h.byteRate
      h.blockAlign h.bitsPerSample d.subChunk2ID d.subChunk2Size
      (samplesToBytes 2 d.data) 2 hcid h1id h2id hcs h1s haf hnc hsr hbr
      hba (by omega) h2s hw hmod
    have hround : bytesToSamples 2 (samplesToBytes 2 d.data) = d.data :=
      bytesToSamples_samplesToBytes 2 (by omega) d.data
        (fun x hx => leToInt_intToLE2' x (hsamp1 x hx).1 (hsamp1 x hx).2)
    rw [hround] at hR
    refine ⟨_, hW, ?_⟩
    rw [hR, ← hfmt]
  · have hw : (if h.bitsPerSample = 8 then some 1
        else if h.bitsPerSample = 16 then some 2
        else if h.bitsPerSample = 32 then some 4
        else none : Option Nat) = some 4 := by simp [hb]
    have hsamp1 : ∀ x ∈ d.data,
        -(2 ^ (8 * 4 - 1) : Int) ≤ x ∧ x < 2 ^ (8 * 4 - 1) := by
      intro x hx
      have hh := hsamp x hx
      rw [hb] at hh
      exact hh
    have hW := write_wave_eq h d 4 hfmt
      ⟨hcs, h1s, haf, hnc, hsr, hbr, hba, by omega, h2s⟩ hw hsamp1
    rw [hfmt, pack4s_of_len4 _ hcid, pack4s_of_len4 _ h1id,
      pack4s_of_len4 _ h2id, pack4s_of_len4 _ waveBytes_length] at hW
    have hmod : (samplesToBytes 4 d.data).length % 4 = 0 := by
      rw [samplesToBytes_length]
      omega
    have hR := read_chain h.chunkID h.chunkSize h.subChunk1ID
      h.subChunk1Size h.audioFormat h.numChannels h.sampleRate h.byteRate
      h.blockAlign h.bitsPerSample d.subChunk2ID d.subChunk2Size
      (samplesToBytes 4 d.data) 4 hcid h1id h2id hcs h1s haf hnc hsr hbr
      hba (by omega) h2s hw hmod
    have hround : bytesToSamples 4 (samplesToBytes 4 d.data) = d.data :=
      bytesToSamples_samplesToBytes 4 (by omega) d.data
        (fun x hx => leToInt_intToLE4 x (hsamp1 x hx).1 (hsamp1 x hx).2)
    rw [hround] at hR
    refine ⟨_, hW, ?_⟩
    rw [hR, ← hfmt]

/-- Witness for c5_read_write_roundtrip at a concrete 16-bit stereo file. -/
theorem c5_read_write_roundtrip_witness :
    ∃ bs, write_wave exStereoHeader
      { subChunk2ID := dataBytes, subChunk2Size := 8, data := [100, 50, -200, 50] } = .ok bs ∧
    read_wave bs = .ok (exStereoHeader,
      { subChunk2ID := dataBytes, subChunk2Size := 8, data := [100, 50, -200, 50] }) :=
  c5_read_write_roundtrip exStereoHeader
    { subChunk2ID := dataBytes, subChunk2Size := 8, data := [100, 50, -200, 50] }
    (by decide) (by decide) (by decide) (by decide) (by decide) (by decide)
    (by decide) (by decide) (by decide) (by decide) (by decide) (by decide)
    (Or.inr (Or.inl (by decide))) (by decide)

end Estereo

namespace Estereo

/-- C8: on a buffer with a complete 44-byte header, read_wave fails with
the ValueError of the source (the FormatError of the spec) exactly when
bytes 8-11 are not "WAVE" or the BitsPerSample field (bytes 34-35) is not
8, 16 or 32 - independent of the sample payload, so the error is raised
before any sample is decoded; in particular BitsPerSample = 24 is
rejected. -/
theorem c8_format_rejection (hdr junk : List Nat) (hlen : hdr.length = 44) :
    read_wave (hdr ++ junk) = .error .valueError ↔
      ((hdr.drop 8).take 4 ≠ waveBytes ∨
       (leToNat ((hdr.drop 34).take 2) ≠ 8 ∧
        leToNat ((hdr.drop 34).take 2) ≠ 16 ∧
        leToNat ((hdr.drop 34).take 2) ≠ 32)) := by
  have hL : (hdr ++ junk).length = 44 + junk.length := by simp [hlen]
  have e8 : ((hdr ++ junk).drop 8).take 4 = (hdr.drop 8).take 4 := by
    rw [List.drop_append_of_le_length (by omega),
      List.take_append_of_le_length (by rw [List.length_drop, hlen]; omega)]
  have e34 : (((hdr ++ junk).drop 12).drop 22).take 2 = (hdr.drop 34).take 2 := by
    rw [List.drop_drop]
    show ((hdr ++ junk).drop 34).take 2 = _
    rw [List.drop_append_of_le_length (by omega),
      List.take_append_of_le_length (by rw [List.length_drop, hlen]; omega)]
  unfold read_wave readFmt readData
  rw [if_neg (by rw [hL]; omega)]
  rw [e8]
  by_cases hf : (hdr.drop 8).take 4 = waveBytes
  · rw [if_neg (not_not_intro hf)]
    rw [if_neg (by rw [List.length_drop, hL]; omega)]
    rw [if_neg (by rw [List.length_drop, List.length_drop, hL]; omega)]
    rw [e34]
    by_cases h8 : leToNat ((hdr.drop 34).take 2) = 8
    · simp [h8, hf, Nat.mod_one]
    · by_cases h16 : leToNat ((hdr.drop 34).take 2) = 16
      · simp [h16, h8, hf, ite_eq_iff]
      · by_cases h32 : leToNat ((hdr.drop 34).take 2) = 32
        · simp [h32, h16, h8, hf, ite_eq_iff]
        · simp [h32, h16, h8, hf]
  · rw [if_pos hf]
    simp [hf]

/-- Witness for c8_format_rejection: a 44-byte header with format "WAVE"
but BitsPerSample = 24 is rejected with ValueError, whatever the payload. -/
theorem c8_format_rejection_witness :
    read_wave ((riffBytes ++ natToLE 4 40 ++ waveBytes ++ fmtBytes ++
      natToLE 4 16 ++ natToLE 2 1 ++ natToLE 2 1 ++ natToLE 4 8000 ++
      natToLE 4 24000 ++ natToLE 2 3 ++ natToLE 2 24 ++ dataBytes ++
      natToLE 4 0) ++ []) = .error .valueError :=
  (c8_format_rejection _ [] (by decide)).mpr (Or.inr (by decide))

end Estereo
